import Mathlib

set_option maxHeartbeats 1000000

namespace StoryLoom

/-- Model of JavaScript strings as lists of characters. -/
abbrev Text := List Char

/-- The whitespace characters relevant to the ASCII content handled by the page;
models JavaScript String.prototype.trim on such content. -/
def isWS (c : Char) : Bool := c = ' ' || c = '\n' || c = '\t' || c = '\r'

/-- Remove leading whitespace. -/
def trimLeft (t : Text) : Text := t.dropWhile isWS

/-- Remove trailing whitespace. -/
def trimRight (t : Text) : Text := (t.reverse.dropWhile isWS).reverse

/-- JavaScript s.trim(). -/
def trim (t : Text) : Text := trimLeft (trimRight t)

/-- Lowercase a character; models the i flag of the thinking-tag regex. -/
def lc (c : Char) : Char := c.toLower

/-- The pattern is an exact (case-sensitive) prefix of the text;
building block of String.indexOf. -/
def matchEx : Text → Text → Bool
  | [], _ => true
  | _ :: _, [] => false
  | p :: ps, c :: cs => (c == p) && matchEx ps cs

/-- The pattern is a case-insensitive prefix of the text;
building block of the /i regex matching. -/
def matchCI : Text → Text → Bool
  | [], _ => true
  | _ :: _, [] => false
  | p :: ps, c :: cs => (lc c == lc p) && matchCI ps cs

/-- Index of the first suffix of the text satisfying f; substring-search helper. -/
def findPos (f : Text → Bool) : Text → Option Nat
  | [] => none
  | t@(_ :: rest) => if f t then some 0 else (findPos f rest).map (· + 1)

/-- JavaScript t.indexOf(pat), as an Option instead of -1. -/
def indexOfEx (t pat : Text) : Option Nat := findPos (matchEx pat) t

/-- The text contains the pattern as an exact substring. -/
def containsEx (pat t : Text) : Bool := (findPos (matchEx pat) t).isSome

/-- The text contains the pattern as a case-insensitive substring. -/
def containsCI (pat t : Text) : Bool := (findPos (matchCI pat) t).isSome

/-- Lowercase long-form marker, matched case-insensitively by the regex. -/
def openLongP : Text := ['<', 't', 'h', 'i', 'n', 'k', 'i', 'n', 'g', '>']

/-- Lowercase short-form marker, matched case-insensitively by the regex. -/
def openShortP : Text := ['<', 't', 'h', 'i', 'n', 'k', '>']

/-- Lowercase long-form closing marker. -/
def closeLongP : Text := ['<', '/', 't', 'h', 'i', 'n', 'k', 'i', 'n', 'g', '>']

/-- Lowercase short-form closing marker. -/
def closeShortP : Text := ['<', '/', 't', 'h', 'i', 'n', 'k', '>']

/-- The exact opening tag literal the page emits and searches for with indexOf. -/
def tagOpenLit : Text := ['<', 'T', 'h', 'i', 'n', 'k', 'i', 'n', 'g', '>']

/-- The exact closing tag literal the page emits and searches for with indexOf. -/
def tagCloseLit : Text := ['<', '/', 'T', 'h', 'i', 'n', 'k', 'i', 'n', 'g', '>']

/-- The streaming loop's segmentation variables in handleSubmit:
currentResponseText, currentThinkingText, isInsideThinkTag. -/
structure SegState where
  response : Text
  thinking : Text
  inside : Bool
deriving Repr, DecidableEq

/-- JavaScript String.substring: both ends clamped to the length and
swapped when start exceeds end. -/
def substrJS (t : Text) (a b : Nat) : Text :=
  if a ≤ b then (t.take b).drop a else (t.take a).drop b

/-- One iteration of the streaming classifier in handleSubmit (page lines 486-535),
run against the whole accumulated buffer fullContent.  The source computes
openTagIndex and closeTagIndex with indexOf on the exact literals, then an
"alternative format" index that repeats the very same literals, so the
alternative branch can never fire; the ternaries for tagLength and
closeTagLength are kept as written (10/7 and 11/8). -/
def segStep (fullContent : Text) (st : SegState) : SegState :=
  let openTagIndex := indexOfEx fullContent tagOpenLit
  let closeTagIndex := indexOfEx fullContent tagCloseLit
  let altOpenTagIndex := if openTagIndex = none then indexOfEx fullContent tagOpenLit else none
  let altCloseTagIndex := if closeTagIndex = none then indexOfEx fullContent tagCloseLit else none
  let effectiveOpenTagIndex := match openTagIndex with
    | some i => some i
    | none => altOpenTagIndex
  let effectiveCloseTagIndex := match closeTagIndex with
    | some i => some i
    | none => altCloseTagIndex
  let tagLength := if openTagIndex.isSome then 10 else if altOpenTagIndex.isSome then 7 else 10
  let closeTagLength :=
    if closeTagIndex.isSome then 11 else if altCloseTagIndex.isSome then 8 else 11
  match effectiveOpenTagIndex, effectiveCloseTagIndex with
  | some oi, none =>
      { response := if 0 < oi then trim (fullContent.take oi) else st.response
        thinking := trim (fullContent.drop (oi + tagLength))
        inside := true }
  | some oi, some ci =>
      { response :=
          trim (trim (fullContent.take oi) ++ [' '] ++ trim (fullContent.drop (ci + closeTagLength)))
        thinking := trim (substrJS fullContent (oi + tagLength) ci)
        inside := false }
  | none, _ =>
      if st.inside then
        let tagStart := match indexOfEx fullContent tagOpenLit with
          | some i => i + 10
          | none => 6  -- in the source this is indexOf + 7 with indexOf = -1
        { st with thinking := trim (fullContent.drop tagStart) }
      else
        { st with response := trim fullContent }

/-- Length of an open marker matched case-insensitively at the head of the text;
the regex alternation think(?:ing)? prefers the long spelling. -/
def openLenAt (t : Text) : Option Nat :=
  if matchCI openLongP t then some 10 else if matchCI openShortP t then some 7 else none

/-- Length of a closing marker matched case-insensitively at the head of the text. -/
def closeLenAt (t : Text) : Option Nat :=
  if matchCI closeLongP t then some 11 else if matchCI closeShortP t then some 8 else none

/-- First case-insensitive closing-marker occurrence: (start, length). -/
def closeSearch : Text → Option (Nat × Nat)
  | [] => none
  | t@(_ :: rest) =>
    match closeLenAt t with
    | some n => some (0, n)
    | none => (closeSearch rest).map (fun p => (p.1 + 1, p.2))

/-- First match of the thinking-tag regex (with its lazy group):
(openStart, openLength, closeStart, closeLength).  The scan tries start
positions left to right; a position with an open marker but no later close
marker is backtracked past, exactly as the regex engine does. -/
def regexFirst : Text → Option (Nat × Nat × Nat × Nat)
  | [] => none
  | t@(_ :: rest) =>
    match openLenAt t with
    | some n =>
      match closeSearch (t.drop n) with
      | some km => some (0, n, n + km.1, km.2)
      | none => (regexFirst rest).map (fun q => (q.1 + 1, q.2.1, q.2.2.1 + 1, q.2.2.2))
    | none => (regexFirst rest).map (fun q => (q.1 + 1, q.2.1, q.2.2.1 + 1, q.2.2.2))

/-- The characters of the text strictly between positions a and b. -/
def sliceBetween (t : Text) (a b : Nat) : Text := (t.drop a).take (b - a)

/-- The final full-buffer pass after the stream closes (page lines 563-576):
on a regex match, finalThinking is the trimmed group and finalResponse is the
buffer with the matched span removed, trimmed; otherwise finalResponse is the
whole untrimmed buffer and finalThinking is empty. -/
def finalPass (t : Text) : Text × Text :=
  match regexFirst t with
  | some (p, n, k, m) => (trim (t.take p ++ t.drop (k + m)), trim (sliceBetween t (p + n) k))
  | none => (t, [])

/-- Split a text into its lines; models the m flag line structure. -/
def splitLines : Text → List Text
  | [] => [[]]
  | c :: cs =>
    if c = '\n' then [] :: splitLines cs
    else match splitLines cs with
      | [] => [[c]]
      | l :: ls => (c :: l) :: ls

/-- Rejoin lines with newline separators. -/
def joinLines : List Text → Text
  | [] => []
  | l :: ls => match ls with
    | [] => l
    | _ :: _ => l ++ '\n' :: joinLines ls

/-- Number of leading # characters of a line. -/
def headerHashCount (l : Text) : Nat := (l.takeWhile (fun c => c = '#')).length

/-- Whether a line matches the header regex of formatHeadersAsBold:
one to six leading hashes, at least one whitespace character, then at least
one further character. -/
def isHeaderLine (l : Text) : Bool :=
  let hs := headerHashCount l
  decide (1 ≤ hs) && decide (hs ≤ 6) &&
    (match l.drop hs with
     | c :: _ :: _ => isWS c
     | _ => false)

/-- The replacement a header line receives from formatHeadersAsBold. -/
def headerBold (l : Text) : Text :=
  if isHeaderLine l then
    ['*', '*'] ++ trim (l.drop (headerHashCount l)) ++ ['*', '*']
  else l

/-- formatHeadersAsBold (page lines 264-269): rewrite every markdown header line
as a bold line, leaving other lines unchanged. -/
def formatHeadersAsBold (t : Text) : Text :=
  joinLines ((splitLines t).map headerBold)

/-- Fuelled worker for splitOnEx; each found occurrence consumes at least one
character, so fuel equal to the text length always suffices. -/
def splitOnExAux (pat : Text) : Nat → Text → List Text
  | 0, t => [t]
  | fuel + 1, t =>
    match findPos (matchEx pat) t with
    | none => [t]
    | some i => t.take i :: splitOnExAux pat fuel (t.drop (i + pat.length))

/-- JavaScript content.split(pat) for a nonempty pattern. -/
def splitOnEx (pat : Text) (t : Text) : List Text :=
  if pat.length = 0 then [t] else splitOnExAux pat t.length t

/-- The literal of the legacy fallback split in loadProjectData. -/
def thinkingColonLit : Text := ['T', 'h', 'i', 'n', 'k', 'i', 'n', 'g', ':']

/-- Load-time extraction of an AI StoredTurnRecord (page lines 219-236):
regex extraction of the thinking block, a legacy fallback split on
Thinking:, and formatHeadersAsBold applied to the remaining message text. -/
def loadExtract (content : Text) : Text × Text :=
  match regexFirst content with
  | some (p, n, k, m) =>
      (formatHeadersAsBold (trim (content.take p ++ content.drop (k + m))),
       trim (sliceBetween content (p + n) k))
  | none =>
      if containsEx thinkingColonLit content then
        (formatHeadersAsBold (trim ((splitOnEx thinkingColonLit content).headD [])),
         if 1 < (splitOnEx thinkingColonLit content).length then
           trim ((splitOnEx thinkingColonLit content).getD 1 [])
         else [])
      else (formatHeadersAsBold content, [])

/-- Two newline characters. -/
def nl2 : Text := ['\n', '\n']

/-- The persistence payload built for a finalized assistant turn
(page line 605): response, two newlines, then the thinking block, with the
tag emitted unconditionally. -/
def serializeFinal (resp think : Text) : Text :=
  resp ++ nl2 ++ tagOpenLit ++ think ++ tagCloseLit

/-- addMessage's storage payload (page lines 333-337): the thinking block is
appended only when the thinking text is truthy and nonblank. -/
def serializeAdd (text think : Text) : Text :=
  if trim think = [] then text else text ++ nl2 ++ tagOpenLit ++ think ++ tagCloseLit

/-- Shorthand to write concrete texts. -/
def chars (x : String) : Text := x.data

/-- Neither marker spelling occurs (case-insensitively) anywhere in the text. -/
@[reducible] def MarkerFree (t : Text) : Prop :=
  containsCI openLongP t = false ∧ containsCI openShortP t = false ∧
  containsCI closeLongP t = false ∧ containsCI closeShortP t = false

/-- No line of the text matches the markdown-header pattern rewritten on load. -/
@[reducible] def NoHeader (t : Text) : Prop := ∀ l ∈ splitLines t, isHeaderLine l = false

/-- The `type` field of a Message. -/
inductive Channel
  | user
  | ai
  | system
  | thinking
deriving Repr, DecidableEq

/-- The Message record of the page (its Turn representation). -/
structure Message where
  id : Nat
  type : Channel
  text : Text
  timestamp : Nat
  isPending : Bool
  thinkingText : Text
  isThinkingVisible : Bool
deriving Repr, DecidableEq

/-- The fixed user-facing error text of the catch block (page line 621). -/
def errorText : Text := chars "Error processing request. Please try again."

/-- The per-message effect of the catch block (page lines 616-627): a pending
AI message gets the fixed error text and stops pending; everything else,
including isThinkingVisible and thinkingText, is left as it was. -/
def errorEffect (msg : Message) : Message :=
  if msg.type = Channel.ai ∧ msg.isPending = true then
    { msg with text := errorText, isPending := false }
  else msg

/-- The conversation update performed by the catch block of handleSubmit. -/
def errorFinalize (conv : List Message) : List Message := conv.map errorEffect

/-- The per-message effect of the success finalization (page lines 583-596). -/
def finalizeEffect (targetId : Nat) (resp think : Text) (msg : Message) : Message :=
  if msg.id = targetId then
    { msg with text := formatHeadersAsBold resp, thinkingText := think,
               isPending := false, isThinkingVisible := false }
  else msg

/-- updateAiMessage (page lines 370-379). -/
def updateAiEffect (targetId : Nat) (t : Text) (msg : Message) : Message :=
  if msg.id = targetId then { msg with text := formatHeadersAsBold t } else msg

/-- updateThinkingMessage (page lines 382-391). -/
def updateThinkingEffect (targetId : Nat) (t : Text) (msg : Message) : Message :=
  if msg.id = targetId then { msg with thinkingText := t } else msg

/-- toggleThinking (page lines 358-367). -/
def toggleEffect (targetId : Nat) (msg : Message) : Message :=
  if msg.id = targetId then { msg with isThinkingVisible := !msg.isThinkingVisible } else msg

/-- The conversation-owning state: the history list, the loading flag that
serializes submissions, and the message id counter. -/
structure ConvState where
  conv : List Message
  loading : Bool
  counter : Nat
deriving Repr, DecidableEq

/-- The user message appended by handleSubmit (page line 401). -/
def userMsg (uid : Nat) (t : Text) (ts : Nat) : Message :=
  { id := uid, type := Channel.user, text := t, timestamp := ts,
    isPending := false, thinkingText := [], isThinkingVisible := false }

/-- The thinking placeholder text (page line 408). -/
def aiThinkingLit : Text := chars "AI is thinking..."

/-- The pending assistant placeholder appended by handleSubmit (page lines 404-413). -/
def placeholderMsg (pid ts : Nat) : Message :=
  { id := pid, type := Channel.ai, text := [], timestamp := ts,
    isPending := true, thinkingText := aiThinkingLit, isThinkingVisible := true }

/-- The conversation-mutating events of the engine. -/
inductive ConvOp
  | submit (t : Text) (ts : Nat)
  | updateAi (i : Nat) (t : Text)
  | updateThinking (i : Nat) (t : Text)
  | toggle (i : Nat)
  | finalizeSuccess (i : Nat) (resp think : Text)
  | finalizeError

/-- One conversation event.  submit is guarded by the empty-input and loading
checks of page line 396 and appends the user turn then the pending placeholder;
the update and finalize events are the map-based setState calls of the page. -/
def applyOp (st : ConvState) : ConvOp → ConvState
  | .submit t ts =>
    if trim t = [] ∨ st.loading = true then st
    else
      { conv := st.conv ++ [userMsg (st.counter + 1) t ts, placeholderMsg (st.counter + 2) ts],
        loading := true, counter := st.counter + 2 }
  | .updateAi i t => { st with conv := st.conv.map (updateAiEffect i t) }
  | .updateThinking i t => { st with conv := st.conv.map (updateThinkingEffect i t) }
  | .toggle i => { st with conv := st.conv.map (toggleEffect i) }
  | .finalizeSuccess i resp think =>
      { st with conv := st.conv.map (finalizeEffect i resp think), loading := false }
  | .finalizeError => { st with conv := errorFinalize st.conv, loading := false }

/-- Run a sequence of conversation events. -/
def runOps (st : ConvState) : List ConvOp → ConvState
  | [] => st
  | op :: ops => runOps (applyOp st op) ops

/-- Event well-formedness mirroring handleSubmit's actual usage: the success
finalization always targets thinkingId, the id of the pending placeholder. -/
def okOp (st : ConvState) : ConvOp → Prop
  | .finalizeSuccess i _ _ => ∀ m ∈ st.conv, m.isPending = true → m.id = i
  | _ => True

/-- All events of a trace are well formed at the state they act on. -/
def OkRun (st : ConvState) : List ConvOp → Prop
  | [] => True
  | op :: ops => okOp st op ∧ OkRun (applyOp st op) ops

/-- Number of pending messages in a conversation. -/
def pendingCount (conv : List Message) : Nat :=
  (conv.filter (fun m => m.isPending)).length

/-- The conversation invariant: only AI messages are ever pending, and there is
at most one pending message, none when no submission is in flight. -/
def ConvInv (st : ConvState) : Prop :=
  (∀ m ∈ st.conv, m.isPending = true → m.type = Channel.ai) ∧
  pendingCount st.conv ≤ (if st.loading then 1 else 0)

/-- The persistence ledger savedMessageIdsRef. -/
structure GuardState where
  ledger : List Nat
deriving Repr, DecidableEq

/-- Outcome of one commit call: the new ledger, whether an external write was
attempted, and whether it completed successfully. -/
structure CommitResult where
  state : GuardState
  attempted : Bool
  wrote : Bool
deriving Repr, DecidableEq

/-- One commit attempt for a turn id (page lines 598-612 and 326-352):
skip if the id is in the ledger; otherwise attempt the external write and add
the id only when the await completes successfully — a failed write leaves the
ledger unchanged. -/
def commitStep (i : Nat) (writeOk : Bool) (st : GuardState) : CommitResult :=
  if i ∈ st.ledger then ⟨st, false, false⟩
  else if writeOk then ⟨⟨i :: st.ledger⟩, true, true⟩
  else ⟨st, true, false⟩

/-- Fold commit attempts for one id over a list of write outcomes, counting
(successful writes, attempted writes). -/
def runCommits (i : Nat) (outs : List Bool) (st : GuardState) : GuardState × Nat × Nat :=
  match outs with
  | [] => (st, 0, 0)
  | b :: bs =>
    let r := commitStep i b st
    let rest := runCommits i bs r.state
    (rest.1, (if r.wrote then 1 else 0) + rest.2.1, (if r.attempted then 1 else 0) + rest.2.2)

/-- Hydration (page lines 236-250): every id of the loaded records is added to
the ledger while the history is being rebuilt. -/
def hydrate (ids : List Nat) (st : GuardState) : GuardState := ⟨ids ++ st.ledger⟩

/-- The mutable project metadata that autosave persists. -/
structure ProjectMeta where
  title : Text
  briefing : List (Text × Text)
deriving Repr, DecidableEq

/-- The 20000 ms quiescence window, both the debounce delay and the minimum
interval since the last save (page lines 276 and 302). -/
def WINDOW : Nat := 20000

/-- The autosave effect's state: the pending timer with the metadata snapshot
its closure captured, the last-save clock, the in-flight flag, the current
metadata (what a re-armed timer captures), and the log of persistence calls
issued.  The timer the effect arms at mount and after load is the initial
state's timer. -/
structure AutoState where
  timer : Option (Nat × ProjectMeta)
  lastSave : Nat
  saving : Bool
  current : ProjectMeta
  saves : List (Nat × ProjectMeta)
deriving Repr, DecidableEq

/-- A metadata mutation at time t: the effect re-runs, the cleanup clears the
previous timer, and a fresh 20 s timer capturing the new snapshot starts. -/
def mutateMeta (t : Nat) (m : ProjectMeta) (st : AutoState) : AutoState :=
  { st with current := m, timer := some (t + WINDOW, m) }

/-- The pending timer elapses: autoSave runs, persisting its captured snapshot
only when no save is in flight and the window has passed since the last save
(page lines 273-299).  Because isSaving is in the effect's dependency array
(page line 304), a performed save re-runs the effect and arms a fresh 20 s
timer capturing the then-current snapshot, so the code keeps autosaving every
window period (the isSaving=true arming is cleared again by the
isSaving=false re-run at completion, so with the awaited save collapsed to
its completion instant only the completion-time timer survives).  A skipped
run changes no state, so nothing re-arms and the timer is simply gone. -/
def fireTimer (st : AutoState) : AutoState :=
  match st.timer with
  | none => st
  | some dm =>
    if st.saving = false ∧ WINDOW ≤ dm.1 - st.lastSave then
      { timer := some (dm.1 + WINDOW, st.current), lastSave := dm.1, saving := st.saving,
        current := st.current, saves := st.saves ++ [(dm.1, dm.2)] }
    else
      { st with timer := none }

/-- Process timed mutations in order; a pending timer whose deadline arrives
before the next mutation fires first. -/
def runMutations (st : AutoState) : List (Nat × ProjectMeta) → AutoState
  | [] => st
  | (t, m) :: rest =>
    let st' := match st.timer with
      | some dm => if dm.1 ≤ t then fireTimer st else st
      | none => st
    runMutations (mutateMeta t m st') rest

/-- The mutation times are ordered and each arrives within the quiescence
window of the previous one. -/
def chainFrom (prev : Nat) : List (Nat × ProjectMeta) → Prop
  | [] => True
  | (t, _) :: rest => prev ≤ t ∧ t < prev + WINDOW ∧ chainFrom t rest

/-- Outcome of the generation stream as seen after the read loop. -/
inductive StreamOutcome
  | ok (fullContent : Text)
  | failed

/-- The turn-record write handleSubmit issues after streaming (lines 598-612):
none on the error path, since the catch block skips the save; on success, one
record serialized from the final pass unless the id is already saved. -/
def handleSubmitWrites (outcome : StreamOutcome) (turnId : Nat) (ledger : List Nat) :
    List (Nat × Text) :=
  match outcome with
  | .failed => []
  | .ok fullContent =>
    if turnId ∈ ledger then []
    else [(turnId, serializeFinal (finalPass fullContent).1 (finalPass fullContent).2)]

/-- addMessage's persistence guard (page line 326): an AI message is written
only when persist is requested and its trimmed text is nonempty. -/
def shouldPersistAdd (ty : Channel) (t : Text) (persist : Bool) : Bool :=
  persist && (decide (ty ≠ Channel.ai) || (decide (ty = Channel.ai) && decide (trim t ≠ [])))

/-- Once an id is in the ledger, further commit calls change nothing. -/
theorem runCommits_mem (i : Nat) (outs : List Bool) (st : GuardState) (h : i ∈ st.ledger) :
    runCommits i outs st = (st, 0, 0) := by
  induction outs with
  | nil => rfl
  | cons b bs ih => simp [runCommits, commitStep, h, ih]

/-- Starting outside the ledger, at most one successful write ever happens. -/
theorem runCommits_wrote_le_one (i : Nat) (outs : List Bool) :
    ∀ st : GuardState, i ∉ st.ledger → (runCommits i outs st).2.1 ≤ 1 := by
  induction outs with
  | nil => intro st _; simp [runCommits]
  | cons b bs ih =>
    intro st h
    cases b with
    | true =>
      have hmem : i ∈ (GuardState.mk (i :: st.ledger)).ledger := by simp
      simp [runCommits, commitStep, h, runCommits_mem i bs _ hmem]
    | false =>
      simpa [runCommits, commitStep, h] using ih st h

/-- C1: for one turn id, commit is at-most-once on success: each call consults
the ledger first and is a no-op once the id is recorded; over any sequence of
outcomes at most one external write succeeds; the id is added to the ledger
exactly on a successful write, and a failed write leaves the ledger unchanged
so a later retry can attempt the write again. -/
theorem claim1_commit_idempotent (i : Nat) (outs : List Bool) (st0 st : GuardState) (b : Bool)
    (h0 : i ∉ st0.ledger) :
    (runCommits i outs st0).2.1 ≤ 1 ∧
    (i ∈ st.ledger → commitStep i b st = ⟨st, false, false⟩) ∧
    (i ∉ st.ledger → commitStep i false st = ⟨st, true, false⟩) ∧
    (i ∉ st.ledger → commitStep i true st = ⟨⟨i :: st.ledger⟩, true, true⟩) := by
  refine ⟨runCommits_wrote_le_one i outs st0 h0, ?_, ?_, ?_⟩
  · intro h; simp [commitStep, h]
  · intro h; simp [commitStep, h]
  · intro h; simp [commitStep, h]

/-- Witness for C1 at a failed write followed by two successful retries. -/
theorem claim1_commit_idempotent_witness :
    (runCommits 1 [false, true, true] ⟨[]⟩).2.1 ≤ 1 ∧
    (1 ∈ (GuardState.mk [1]).ledger → commitStep 1 true ⟨[1]⟩ = ⟨⟨[1]⟩, false, false⟩) ∧
    (1 ∉ (GuardState.mk [1]).ledger → commitStep 1 false ⟨[1]⟩ = ⟨⟨[1]⟩, true, false⟩) ∧
    (1 ∉ (GuardState.mk [1]).ledger → commitStep 1 true ⟨[1]⟩ = ⟨⟨[1, 1]⟩, true, true⟩) :=
  claim1_commit_idempotent 1 [false, true, true] ⟨[]⟩ ⟨[1]⟩ true (by decide)

/-- C10: hydration adds every loaded id to the ledger, so any later commit
attempt for a restored turn performs no write and leaves the state unchanged. -/
theorem claim10_hydration_ledger (ids : List Nat) (st : GuardState) (i : Nat) (b : Bool)
    (h : i ∈ ids) :
    commitStep i b (hydrate ids st) = ⟨hydrate ids st, false, false⟩ := by
  have hmem : i ∈ (hydrate ids st).ledger := by
    simp only [hydrate, List.mem_append]
    exact Or.inl h
  simp [commitStep, hmem]

/-- Witness for C10: a reloaded turn id 7 is not re-written by a later commit. -/
theorem claim10_hydration_ledger_witness :
    commitStep 7 true (hydrate [7, 9] ⟨[]⟩) = ⟨hydrate [7, 9] ⟨[]⟩, false, false⟩ :=
  claim10_hydration_ledger [7, 9] ⟨[]⟩ 7 true (by decide)

/-- C2 counterexample: on the three fragments of the claim, the final
full-buffer pass yields a response with two spaces between Hello and world
(the regex replace removes the matched span without rejoining on a single
space), so response is not the claimed "Hello world". -/
theorem claim2_counterexample :
    (finalPass (chars "Hello <think>reasoning stuff</think> world")).1 ≠ chars "Hello world" := by
  decide

/-- C2 (amended): feeding the fragments sequentially, each streaming step
classifies the whole accumulated buffer as response with empty reasoning
(the streaming indexOf search only matches the exact spelling and never the
short spelling used by the fragments), and the final post-stream pass yields
response "Hello  world" (two spaces) and reasoning "reasoning stuff". -/
theorem claim2_amended_split_marker :
    segStep (chars "Hello <th") ⟨[], [], false⟩ = ⟨chars "Hello <th", [], false⟩ ∧
    segStep (chars "Hello <think>reasoning stuff</th") ⟨chars "Hello <th", [], false⟩
      = ⟨chars "Hello <think>reasoning stuff</th", [], false⟩ ∧
    segStep (chars "Hello <think>reasoning stuff</think> world")
        ⟨chars "Hello <think>reasoning stuff</th", [], false⟩
      = ⟨chars "Hello <think>reasoning stuff</think> world", [], false⟩ ∧
    finalPass (chars "Hello <think>reasoning stuff</think> world")
      = (chars "Hello  world", chars "reasoning stuff") := by
  refine ⟨by decide, by decide, by decide, by decide⟩

/-- C3 counterexample: for the buffer "A <think>B" the streaming classifier
does not yield response "A" (the whole buffer stays response, because the
streaming search looks for the exact literal of the other spelling), and on
finalization without a close marker the reasoning channel is empty — the raw
buffer is preserved as response, not as reasoning. -/
theorem claim3_counterexample :
    (segStep (chars "A <think>B") ⟨[], [], false⟩).response ≠ chars "A" ∧
    (finalPass (chars "A <think>B")).2 = [] := by
  refine ⟨by decide, by decide⟩

/-- C3 (amended): with the spelling the streaming search actually matches,
buffer "A <Thinking>B" yields response "A", reasoning "B", insideReasoning
true during streaming; and when the stream finalizes without a close marker,
the whole raw buffer is preserved as the response (for either spelling) while
reasoning is empty. -/
theorem claim3_amended_dangling_open :
    segStep (chars "A <Thinking>B") ⟨[], [], false⟩ = ⟨chars "A", chars "B", true⟩ ∧
    finalPass (chars "A <Thinking>B") = (chars "A <Thinking>B", []) ∧
    finalPass (chars "A <think>B") = (chars "A <think>B", []) := by
  refine ⟨by decide, by decide, by decide⟩

/-- C4: evaluation at the failing input.  The streaming classifier segments
the buffer written with the long marker spelling but leaves the identical
buffer written with the short spelling wholly classified as response, so the
two spellings do not parse identically during incremental streaming; the
final full-buffer pass does treat the two buffers identically. -/
theorem claim4_spelling_divergence :
    segStep (chars "A <Thinking>B</Thinking> C") ⟨[], [], false⟩
      = ⟨chars "A C", chars "B", false⟩ ∧
    segStep (chars "A <think>B</think> C") ⟨[], [], false⟩
      = ⟨chars "A <think>B</think> C", [], false⟩ ∧
    segStep (chars "A <Thinking>B</Thinking> C") ⟨[], [], false⟩
      ≠ segStep (chars "A <think>B</think> C") ⟨[], [], false⟩ ∧
    finalPass (chars "A <Thinking>B</Thinking> C")
      = finalPass (chars "A <think>B</think> C") := by
  refine ⟨by decide, by decide, by decide, by decide⟩

/-- C7 counterexample: error-finalizing the freshly created pending
placeholder overwrites its text and clears pending, but leaves
isThinkingVisible at true — the claim that the reasoning-visible flag
becomes false is refuted. -/
theorem claim7_counterexample :
    errorFinalize [placeholderMsg 2 0]
      = [{ placeholderMsg 2 0 with text := errorText, isPending := false }] ∧
    ((errorFinalize [placeholderMsg 2 0]).headD (placeholderMsg 2 0)).isThinkingVisible
      = true := by
  refine ⟨by decide, by decide⟩

/-- C7 (amended): when the request fails or is aborted, the catch handler maps
the conversation totally (no exception propagates): every pending AI turn gets
the fixed error text and pending false, while its isThinkingVisible flag and
all other fields are left unchanged, and every other message is untouched. -/
theorem claim7_amended_error_finalize (conv : List Message) (m m2 : Message)
    (hai : m.type = Channel.ai) (hpend : m.isPending = true) :
    errorFinalize conv = conv.map errorEffect ∧
    (errorEffect m).text = errorText ∧
    (errorEffect m).isPending = false ∧
    (errorEffect m).isThinkingVisible = m.isThinkingVisible ∧
    (errorEffect m).thinkingText = m.thinkingText ∧
    (errorEffect m).id = m.id ∧
    (errorEffect m).type = m.type ∧
    (¬(m2.type = Channel.ai ∧ m2.isPending = true) → errorEffect m2 = m2) := by
  have hm : errorEffect m = { m with text := errorText, isPending := false } := by
    simp [errorEffect, hai, hpend]
  refine ⟨rfl, ?_, ?_, ?_, ?_, ?_, ?_, ?_⟩
  · simp [hm]
  · simp [hm]
  · simp [hm]
  · simp [hm]
  · simp [hm]
  · simp [hm]
  · intro h2
    unfold errorEffect
    rw [if_neg h2]

/-- Witness for C7 (amended) at the pending placeholder and a user message. -/
theorem claim7_amended_error_finalize_witness :
    errorFinalize [placeholderMsg 2 0] = [placeholderMsg 2 0].map errorEffect ∧
    (errorEffect (placeholderMsg 2 0)).text = errorText ∧
    (errorEffect (placeholderMsg 2 0)).isPending = false ∧
    (errorEffect (placeholderMsg 2 0)).isThinkingVisible
      = (placeholderMsg 2 0).isThinkingVisible ∧
    (errorEffect (placeholderMsg 2 0)).thinkingText = (placeholderMsg 2 0).thinkingText ∧
    (errorEffect (placeholderMsg 2 0)).id = (placeholderMsg 2 0).id ∧
    (errorEffect (placeholderMsg 2 0)).type = (placeholderMsg 2 0).type ∧
    (¬((userMsg 1 [] 0).type = Channel.ai ∧ (userMsg 1 [] 0).isPending = true) →
      errorEffect (userMsg 1 [] 0) = userMsg 1 [] 0) :=
  claim7_amended_error_finalize [placeholderMsg 2 0] (placeholderMsg 2 0) (userMsg 1 [] 0)
    (by decide) (by decide)

/-- C8: an assistant turn that error-finalizes before producing text is never
written: the catch path of handleSubmit issues no turn-record write, the
placeholder itself is inserted with persist = false, and addMessage's guard
refuses to write an AI message whose trimmed text is empty. -/
theorem claim8_empty_response_non_persistence (turnId : Nat) (ledger : List Nat)
    (ty : Channel) (t : Text) (persist : Bool) (hempty : trim t = []) :
    handleSubmitWrites StreamOutcome.failed turnId ledger = [] ∧
    shouldPersistAdd ty t false = false ∧
    shouldPersistAdd Channel.ai t persist = false := by
  refine ⟨rfl, by simp [shouldPersistAdd], ?_⟩
  simp [shouldPersistAdd, hempty]

/-- Witness for C8 at an empty streamed text. -/
theorem claim8_empty_response_non_persistence_witness :
    handleSubmitWrites StreamOutcome.failed 2 [] = [] ∧
    shouldPersistAdd Channel.ai [] false = false ∧
    shouldPersistAdd Channel.ai [] true = false :=
  claim8_empty_response_non_persistence 2 [] Channel.ai [] true (by decide)

/-- The mutation times of a chain never run ahead of its last element. -/
theorem chainFrom_le_getLastD (rest : List (Nat × ProjectMeta)) :
    ∀ (t0 : Nat) (m0 : ProjectMeta), chainFrom t0 rest → t0 ≤ (rest.getLastD (t0, m0)).1 := by
  induction rest with
  | nil => intro t0 m0 _; simp [List.getLastD]
  | cons tm r' ih =>
    intro t0 m0 h
    cases tm with
    | mk t m =>
      obtain ⟨h1, _, h3⟩ := h
      rw [List.getLastD_cons]
      exact Nat.le_trans h1 (ih t m h3)

/-- While mutations keep arriving inside the window, each one just replaces
the pending timer: nothing fires and the captured snapshot is the latest. -/
theorem runMutations_within_window (rest : List (Nat × ProjectMeta)) :
    ∀ (st : AutoState) (t0 : Nat) (m0 : ProjectMeta),
      st.timer = some (t0 + WINDOW, m0) → st.current = m0 → chainFrom t0 rest →
      runMutations st rest
        = { st with
            timer := some ((rest.getLastD (t0, m0)).1 + WINDOW, (rest.getLastD (t0, m0)).2),
            current := (rest.getLastD (t0, m0)).2 } := by
  induction rest with
  | nil =>
    intro st t0 m0 ht hcur _
    cases st
    simp only [runMutations, List.getLastD]
    simp_all
  | cons tm r' ih =>
    intro st t0 m0 ht hcur hchain
    cases tm with
    | mk t m =>
      obtain ⟨h1, h2, h3⟩ := hchain
      have hnle : ¬(t0 + WINDOW ≤ t) := by omega
      have hstep : runMutations st ((t, m) :: r') = runMutations (mutateMeta t m st) r' := by
        simp only [runMutations, ht, hnle, if_false]
      rw [hstep, List.getLastD_cons]
      have := ih (mutateMeta t m st) t m (by simp [mutateMeta]) (by simp [mutateMeta]) h3
      rw [this]
      simp [mutateMeta]

/-- C6 counterexample: two mutations inside one window are coalesced into a
save at the end of the window, but the save itself re-arms the effect's timer
(isSaving is a dependency), so one window later an identical second
persistence call fires — not exactly one call. -/
theorem claim6_counterexample :
    (fireTimer (runMutations ⟨none, 0, false, ⟨[], []⟩, []⟩
        [(0, ⟨chars "a", []⟩), (10000, ⟨chars "b", []⟩)])).saves
      = [(30000, ⟨chars "b", []⟩)] ∧
    (fireTimer (fireTimer (runMutations ⟨none, 0, false, ⟨[], []⟩, []⟩
        [(0, ⟨chars "a", []⟩), (10000, ⟨chars "b", []⟩)]))).saves
      = [(30000, ⟨chars "b", []⟩), (50000, ⟨chars "b", []⟩)] :=
  ⟨by decide, by decide⟩

/-- C6 (amended): N ≥ 1 metadata mutations inside one quiescence window cause
no persistence call while they arrive; the first firing after the window
elapses issues a single call whose payload is the snapshot of the last
mutation, and no intermediate snapshot is ever individually persisted.  The
performed save, however, re-arms the timer for one window later with the same
current snapshot, and that firing's guard passes again, so the code keeps
issuing an identical save every window period instead of stopping after one
call. -/
theorem claim6_autosave_coalescing (t1 : Nat) (m1 : ProjectMeta)
    (rest : List (Nat × ProjectMeta)) (st0 : AutoState)
    (htimer : st0.timer = none) (hsaving : st0.saving = false)
    (hlast : st0.lastSave ≤ t1) (hchain : chainFrom t1 rest) :
    (runMutations st0 ((t1, m1) :: rest)).saves = st0.saves ∧
    (fireTimer (runMutations st0 ((t1, m1) :: rest))).saves
      = st0.saves ++ [((rest.getLastD (t1, m1)).1 + WINDOW, (rest.getLastD (t1, m1)).2)] ∧
    (fireTimer (runMutations st0 ((t1, m1) :: rest))).timer
      = some ((rest.getLastD (t1, m1)).1 + WINDOW + WINDOW, (rest.getLastD (t1, m1)).2) ∧
    (fireTimer (fireTimer (runMutations st0 ((t1, m1) :: rest)))).saves
      = st0.saves ++ [((rest.getLastD (t1, m1)).1 + WINDOW, (rest.getLastD (t1, m1)).2),
          ((rest.getLastD (t1, m1)).1 + WINDOW + WINDOW, (rest.getLastD (t1, m1)).2)] := by
  have hrun : runMutations st0 ((t1, m1) :: rest)
      = { st0 with
          timer := some ((rest.getLastD (t1, m1)).1 + WINDOW, (rest.getLastD (t1, m1)).2),
          current := (rest.getLastD (t1, m1)).2 } := by
    have hstep : runMutations st0 ((t1, m1) :: rest) = runMutations (mutateMeta t1 m1 st0) rest := by
      simp only [runMutations, htimer]
    rw [hstep]
    rw [runMutations_within_window rest (mutateMeta t1 m1 st0) t1 m1 (by simp [mutateMeta])
      (by simp [mutateMeta]) hchain]
    simp [mutateMeta]
  have hguard : WINDOW ≤ (rest.getLastD (t1, m1)).1 + WINDOW - st0.lastSave := by
    have := chainFrom_le_getLastD rest t1 m1 hchain
    omega
  have hguard2 : WINDOW ≤ (rest.getLastD (t1, m1)).1 + WINDOW + WINDOW
      - ((rest.getLastD (t1, m1)).1 + WINDOW) := by omega
  have hfire1 : fireTimer (runMutations st0 ((t1, m1) :: rest))
      = { timer := some ((rest.getLastD (t1, m1)).1 + WINDOW + WINDOW,
            (rest.getLastD (t1, m1)).2),
          lastSave := (rest.getLastD (t1, m1)).1 + WINDOW,
          saving := st0.saving,
          current := (rest.getLastD (t1, m1)).2,
          saves := st0.saves
            ++ [((rest.getLastD (t1, m1)).1 + WINDOW, (rest.getLastD (t1, m1)).2)] } := by
    rw [hrun]
    simp only [fireTimer]
    rw [if_pos ⟨hsaving, hguard⟩]
  refine ⟨by rw [hrun], by rw [hfire1], by rw [hfire1], ?_⟩
  rw [hfire1]
  simp only [fireTimer]
  rw [if_pos ⟨hsaving, hguard2⟩]
  simp

/-- Witness for C6 (amended): two mutations 10 s apart coalesce into one save
carrying the second snapshot at the second deadline, and the re-armed timer
repeats that save one window later. -/
theorem claim6_autosave_coalescing_witness :
    (runMutations ⟨none, 0, false, ⟨[], []⟩, []⟩
        [(0, ⟨chars "a", []⟩), (10000, ⟨chars "b", []⟩)]).saves = [] ∧
    (fireTimer (runMutations ⟨none, 0, false, ⟨[], []⟩, []⟩
        [(0, ⟨chars "a", []⟩), (10000, ⟨chars "b", []⟩)])).saves
      = [] ++ [(([(10000, (⟨chars "b", []⟩ : ProjectMeta))].getLastD
            (0, ⟨chars "a", []⟩)).1 + WINDOW,
          ([(10000, (⟨chars "b", []⟩ : ProjectMeta))].getLastD (0, ⟨chars "a", []⟩)).2)] ∧
    (fireTimer (runMutations ⟨none, 0, false, ⟨[], []⟩, []⟩
        [(0, ⟨chars "a", []⟩), (10000, ⟨chars "b", []⟩)])).timer
      = some (([(10000, (⟨chars "b", []⟩ : ProjectMeta))].getLastD
            (0, ⟨chars "a", []⟩)).1 + WINDOW + WINDOW,
          ([(10000, (⟨chars "b", []⟩ : ProjectMeta))].getLastD (0, ⟨chars "a", []⟩)).2) ∧
    (fireTimer (fireTimer (runMutations ⟨none, 0, false, ⟨[], []⟩, []⟩
        [(0, ⟨chars "a", []⟩), (10000, ⟨chars "b", []⟩)]))).saves
      = [] ++ [(([(10000, (⟨chars "b", []⟩ : ProjectMeta))].getLastD
            (0, ⟨chars "a", []⟩)).1 + WINDOW,
          ([(10000, (⟨chars "b", []⟩ : ProjectMeta))].getLastD (0, ⟨chars "a", []⟩)).2),
          (([(10000, (⟨chars "b", []⟩ : ProjectMeta))].getLastD
            (0, ⟨chars "a", []⟩)).1 + WINDOW + WINDOW,
          ([(10000, (⟨chars "b", []⟩ : ProjectMeta))].getLastD (0, ⟨chars "a", []⟩)).2)] :=
  claim6_autosave_coalescing 0 ⟨chars "a", []⟩ [(10000, ⟨chars "b", []⟩)]
    ⟨none, 0, false, ⟨[], []⟩, []⟩
    rfl rfl (Nat.le_refl 0) (by refine ⟨by omega, by simp [WINDOW], trivial⟩)

/-- Mapping an id-preserving effect over the history keeps the id sequence. -/
theorem map_id_of_preserves (f : Message → Message) (hf : ∀ m, (f m).id = m.id)
    (l : List Message) : (l.map f).map Message.id = l.map Message.id := by
  rw [List.map_map]
  exact List.map_congr_left (fun m _ => hf m)

/-- updateAiEffect keeps id, pending flag and channel. -/
theorem updateAiEffect_fields (i : Nat) (t : Text) (m : Message) :
    (updateAiEffect i t m).id = m.id ∧ (updateAiEffect i t m).isPending = m.isPending ∧
    (updateAiEffect i t m).type = m.type := by
  unfold updateAiEffect
  split <;> simp

/-- updateThinkingEffect keeps id, pending flag and channel. -/
theorem updateThinkingEffect_fields (i : Nat) (t : Text) (m : Message) :
    (updateThinkingEffect i t m).id = m.id ∧
    (updateThinkingEffect i t m).isPending = m.isPending ∧
    (updateThinkingEffect i t m).type = m.type := by
  unfold updateThinkingEffect
  split <;> simp

/-- toggleEffect keeps id, pending flag and channel. -/
theorem toggleEffect_fields (i : Nat) (m : Message) :
    (toggleEffect i m).id = m.id ∧ (toggleEffect i m).isPending = m.isPending ∧
    (toggleEffect i m).type = m.type := by
  unfold toggleEffect
  split <;> simp

/-- finalizeEffect keeps id and channel and never turns pending on. -/
theorem finalizeEffect_fields (i : Nat) (r t : Text) (m : Message) :
    (finalizeEffect i r t m).id = m.id ∧ (finalizeEffect i r t m).type = m.type ∧
    ((finalizeEffect i r t m).isPending = true → m.isPending = true ∧ m.id ≠ i) := by
  unfold finalizeEffect
  split <;> simp_all

/-- errorEffect keeps id and channel and never turns pending on. -/
theorem errorEffect_fields (m : Message) :
    (errorEffect m).id = m.id ∧ (errorEffect m).type = m.type ∧
    ((errorEffect m).isPending = true → m.isPending = true ∧ m.type ≠ Channel.ai) := by
  unfold errorEffect
  by_cases h : m.type = Channel.ai ∧ m.isPending = true
  · rw [if_pos h]
    simp
  · rw [if_neg h]
    exact ⟨rfl, rfl, fun hp => ⟨hp, fun hty => h ⟨hty, hp⟩⟩⟩

/-- pendingCount distributes over append. -/
theorem pendingCount_append (a b : List Message) :
    pendingCount (a ++ b) = pendingCount a + pendingCount b := by
  simp [pendingCount]

/-- Mapping a pending-preserving effect keeps the pending count. -/
theorem pendingCount_map_preserve (f : Message → Message)
    (hf : ∀ m, (f m).isPending = m.isPending) (l : List Message) :
    pendingCount (l.map f) = pendingCount l := by
  induction l with
  | nil => rfl
  | cons m ms ih =>
    simp only [pendingCount, List.map_cons, List.filter_cons] at *
    rw [hf m]
    cases m.isPending <;> simp_all

/-- Success finalization targeted at the only pending id clears all pending. -/
theorem pendingCount_finalize (i : Nat) (r t : Text) (l : List Message)
    (h : ∀ m ∈ l, m.isPending = true → m.id = i) :
    pendingCount (l.map (finalizeEffect i r t)) = 0 := by
  induction l with
  | nil => rfl
  | cons m ms ih =>
    have hm := (finalizeEffect_fields i r t m).2.2
    have hp : (finalizeEffect i r t m).isPending = false := by
      cases hp2 : (finalizeEffect i r t m).isPending with
      | false => rfl
      | true =>
        obtain ⟨hpend, hne⟩ := hm hp2
        exact absurd (h m (by simp) hpend) hne
    have ihr := ih (fun m' hm' => h m' (by simp [hm']))
    simp only [pendingCount, List.map_cons, List.filter_cons, hp] at ihr ⊢
    simp only [Bool.false_eq_true, if_false]
    exact ihr

/-- Error finalization clears all pending once only AI turns are pending. -/
theorem pendingCount_error (l : List Message)
    (h : ∀ m ∈ l, m.isPending = true → m.type = Channel.ai) :
    pendingCount (errorFinalize l) = 0 := by
  induction l with
  | nil => rfl
  | cons m ms ih =>
    have hm := (errorEffect_fields m).2.2
    have hp : (errorEffect m).isPending = false := by
      cases hp2 : (errorEffect m).isPending with
      | false => rfl
      | true =>
        obtain ⟨hpend, hne⟩ := hm hp2
        exact absurd (h m (by simp) hpend) hne
    have ihr := ih (fun m' hm' => h m' (by simp [hm']))
    simp only [errorFinalize, pendingCount, List.map_cons, List.filter_cons, hp] at ihr ⊢
    simp only [Bool.false_eq_true, if_false]
    exact ihr

/-- One event preserves the conversation invariant and only appends ids. -/
theorem applyOp_step (st : ConvState) (op : ConvOp) (hinv : ConvInv st) (hok : okOp st op) :
    ConvInv (applyOp st op) ∧
    (st.conv.map Message.id) <+: ((applyOp st op).conv.map Message.id) := by
  obtain ⟨hai, hcount⟩ := hinv
  cases op with
  | submit t ts =>
    by_cases hguard : trim t = [] ∨ st.loading = true
    · rw [applyOp, if_pos hguard]
      exact ⟨⟨hai, hcount⟩, List.prefix_rfl⟩
    · rw [applyOp, if_neg hguard]
      push_neg at hguard
      have hload : st.loading = false := by
        cases hl : st.loading
        · rfl
        · exact absurd hl hguard.2
      rw [hload] at hcount
      simp only [Bool.false_eq_true, if_false] at hcount
      constructor
      · constructor
        · intro m hm hp
          simp only [List.mem_append, List.mem_cons, List.mem_singleton] at hm
          rcases hm with hm | hm | hm
          · exact hai m hm hp
          · rw [hm] at hp; simp [userMsg] at hp
          · rcases hm with hm | hfalse
            · rw [hm]; rfl
            · simp at hfalse
        · simp only [if_true]
          rw [pendingCount_append]
          have : pendingCount [userMsg (st.counter + 1) t ts,
              placeholderMsg (st.counter + 2) ts] = 1 := by
            simp [pendingCount, userMsg, placeholderMsg, List.filter]
          omega
      · simp only [List.map_append]
        exact List.prefix_append _ _
  | updateAi i t =>
    refine ⟨⟨?_, ?_⟩, ?_⟩
    · intro m hm hp
      simp only [applyOp, List.mem_map] at hm
      obtain ⟨m0, hm0, rfl⟩ := hm
      obtain ⟨_, hpend, hty⟩ := updateAiEffect_fields i t m0
      rw [hty]
      exact hai m0 hm0 (hpend ▸ hp)
    · show pendingCount (st.conv.map (updateAiEffect i t)) ≤ if st.loading then 1 else 0
      rw [pendingCount_map_preserve _ (fun m => (updateAiEffect_fields i t m).2.1)]
      exact hcount
    · show (st.conv.map Message.id) <+: ((st.conv.map (updateAiEffect i t)).map Message.id)
      rw [map_id_of_preserves _ (fun m => (updateAiEffect_fields i t m).1)]
  | updateThinking i t =>
    refine ⟨⟨?_, ?_⟩, ?_⟩
    · intro m hm hp
      simp only [applyOp, List.mem_map] at hm
      obtain ⟨m0, hm0, rfl⟩ := hm
      obtain ⟨_, hpend, hty⟩ := updateThinkingEffect_fields i t m0
      rw [hty]
      exact hai m0 hm0 (hpend ▸ hp)
    · show pendingCount (st.conv.map (updateThinkingEffect i t)) ≤ if st.loading then 1 else 0
      rw [pendingCount_map_preserve _ (fun m => (updateThinkingEffect_fields i t m).2.1)]
      exact hcount
    · show (st.conv.map Message.id) <+: ((st.conv.map (updateThinkingEffect i t)).map Message.id)
      rw [map_id_of_preserves _ (fun m => (updateThinkingEffect_fields i t m).1)]
  | toggle i =>
    refine ⟨⟨?_, ?_⟩, ?_⟩
    · intro m hm hp
      simp only [applyOp, List.mem_map] at hm
      obtain ⟨m0, hm0, rfl⟩ := hm
      obtain ⟨_, hpend, hty⟩ := toggleEffect_fields i m0
      rw [hty]
      exact hai m0 hm0 (hpend ▸ hp)
    · show pendingCount (st.conv.map (toggleEffect i)) ≤ if st.loading then 1 else 0
      rw [pendingCount_map_preserve _ (fun m => (toggleEffect_fields i m).2.1)]
      exact hcount
    · show (st.conv.map Message.id) <+: ((st.conv.map (toggleEffect i)).map Message.id)
      rw [map_id_of_preserves _ (fun m => (toggleEffect_fields i m).1)]
  | finalizeSuccess i r t =>
    refine ⟨⟨?_, ?_⟩, ?_⟩
    · intro m hm hp
      simp only [applyOp, List.mem_map] at hm
      obtain ⟨m0, hm0, rfl⟩ := hm
      obtain ⟨_, hty, hpend⟩ := finalizeEffect_fields i r t m0
      rw [hty]
      exact hai m0 hm0 (hpend hp).1
    · show pendingCount (st.conv.map (finalizeEffect i r t)) ≤ if false then 1 else 0
      rw [pendingCount_finalize i r t st.conv hok]
      simp
    · show (st.conv.map Message.id) <+: ((st.conv.map (finalizeEffect i r t)).map Message.id)
      rw [map_id_of_preserves _ (fun m => (finalizeEffect_fields i r t m).1)]
  | finalizeError =>
    refine ⟨⟨?_, ?_⟩, ?_⟩
    · intro m hm hp
      simp only [applyOp, errorFinalize, List.mem_map] at hm
      obtain ⟨m0, hm0, rfl⟩ := hm
      obtain ⟨_, hty, hpend⟩ := errorEffect_fields m0
      exact absurd (hai m0 hm0 (hpend hp).1) (hpend hp).2
    · show pendingCount (errorFinalize st.conv) ≤ if false then 1 else 0
      rw [pendingCount_error st.conv hai]
      simp
    · show (st.conv.map Message.id) <+: ((st.conv.map errorEffect).map Message.id)
      rw [map_id_of_preserves _ (fun m => (errorEffect_fields m).1)]

/-- C9: for every well-formed sequence of interleaved submissions, fragment
updates, toggles and finalizations, the conversation's turn-id sequence is only
ever appended to (submission order is preserved, nothing is reordered or
deleted), only AI turns are ever pending, and at most one turn is pending at
any time. -/
theorem claim9_turn_order_invariant (ops : List ConvOp) :
    ∀ st0 : ConvState, ConvInv st0 → OkRun st0 ops →
    ConvInv (runOps st0 ops) ∧
    (st0.conv.map Message.id) <+: ((runOps st0 ops).conv.map Message.id) ∧
    pendingCount (runOps st0 ops).conv ≤ 1 := by
  induction ops with
  | nil =>
    intro st0 hinv _
    refine ⟨hinv, List.prefix_rfl, ?_⟩
    show pendingCount st0.conv ≤ 1
    have := hinv.2
    cases h : st0.loading <;> rw [h] at this <;> simp at this <;> omega
  | cons op ops ih =>
    intro st0 hinv hok
    obtain ⟨hok1, hokrest⟩ := hok
    obtain ⟨hinv1, hpre1⟩ := applyOp_step st0 op hinv hok1
    obtain ⟨hinv2, hpre2, hcount2⟩ := ih (applyOp st0 op) hinv1 hokrest
    exact ⟨hinv2, hpre1.trans hpre2, hcount2⟩

/-- Witness for C9: a submission, a fragment update and a success finalization
starting from the empty conversation. -/
theorem claim9_turn_order_invariant_witness :
    ConvInv (runOps ⟨[], false, 0⟩
      [ConvOp.submit (chars "hi") 5, ConvOp.updateAi 2 (chars "x"),
       ConvOp.finalizeSuccess 2 (chars "x") (chars "y")]) ∧
    ((⟨[], false, 0⟩ : ConvState).conv.map Message.id) <+:
      ((runOps ⟨[], false, 0⟩
        [ConvOp.submit (chars "hi") 5, ConvOp.updateAi 2 (chars "x"),
         ConvOp.finalizeSuccess 2 (chars "x") (chars "y")]).conv.map Message.id) ∧
    pendingCount (runOps ⟨[], false, 0⟩
      [ConvOp.submit (chars "hi") 5, ConvOp.updateAi 2 (chars "x"),
       ConvOp.finalizeSuccess 2 (chars "x") (chars "y")]).conv ≤ 1 :=
  claim9_turn_order_invariant
    [ConvOp.submit (chars "hi") 5, ConvOp.updateAi 2 (chars "x"),
     ConvOp.finalizeSuccess 2 (chars "x") (chars "y")]
    ⟨[], false, 0⟩ (by constructor <;> simp [ConvInv, pendingCount])
    (by refine ⟨trivial, trivial, ?_, trivial⟩; simp only [okOp]; decide)


/-- Case-insensitive prefix matching splits over an append of the text. -/
theorem matchCI_append (pat : Text) :
    ∀ (s b : Text),
      matchCI pat (s ++ b) = (matchCI (pat.take s.length) s && matchCI (pat.drop s.length) b) := by
  induction pat with
  | nil => intro s b; cases s <;> simp [matchCI]
  | cons p ps ih =>
    intro s b
    cases s with
    | nil => simp [matchCI]
    | cons c cs =>
      simp [matchCI, Bool.and_assoc, ih cs b]

/-- A pattern absent from a text matches no suffix of it. -/
theorem matchCI_suffix_false (pat : Text) (hpat : pat ≠ []) :
    ∀ (a : Text), containsCI pat a = false → ∀ s, s <:+ a → matchCI pat s = false := by
  intro a
  induction a with
  | nil =>
    intro _ s hs
    rw [List.suffix_nil.mp hs]
    cases pat with
    | nil => exact absurd rfl hpat
    | cons p ps => rfl
  | cons c cs ih =>
    intro hfree s hs
    have h1 : matchCI pat (c :: cs) = false ∧ containsCI pat cs = false := by
      by_cases hm : matchCI pat (c :: cs)
      · simp [containsCI, findPos, hm] at hfree
      · constructor
        · simp [hm]
        · simp only [containsCI, findPos, hm, if_false, Bool.false_eq_true] at hfree ⊢
          cases hcs : findPos (matchCI pat) cs with
          | none => rfl
          | some j => rw [hcs] at hfree; simp at hfree
    rcases List.suffix_cons_iff.mp hs with h | h
    · rw [h]; exact h1.1
    · exact ih h1.2 s h

/-- Chars of any marker pattern past its head are letters, a slash or a
closing angle, never a newline or an opening angle. -/
theorem markerTail_ne (pat : Text)
    (hpat : pat = openLongP ∨ pat = openShortP ∨ pat = closeLongP ∨ pat = closeShortP) :
    ∀ i, i < pat.length → 1 ≤ i → lc (pat.getD i ' ') ≠ '\n' ∧ lc (pat.getD i ' ') ≠ '<' := by
  rcases hpat with rfl | rfl | rfl | rfl <;> decide

/-- A nonempty suffix of a marker-free text, continued by a newline or an
opening angle, matches no marker pattern at its head. -/
theorem matchCI_suffix_cons_false (pat : Text) (hpat : pat ≠ [])
    (htail : ∀ i, i < pat.length → 1 ≤ i → lc (pat.getD i ' ') ≠ '\n' ∧ lc (pat.getD i ' ') ≠ '<')
    (a : Text) (hfree : containsCI pat a = false)
    (s : Text) (hs : s ≠ []) (hsuf : s <:+ a)
    (c : Char) (hc : c = '\n' ∨ c = '<') (rest : Text) :
    matchCI pat (s ++ c :: rest) = false := by
  rw [matchCI_append]
  by_cases hlen : pat.length ≤ s.length
  · rw [List.take_of_length_le hlen,
      matchCI_suffix_false pat hpat a hfree s hsuf, Bool.false_and]
  · push_neg at hlen
    have h1 : 1 ≤ s.length := by
      cases s with
      | nil => exact absurd rfl hs
      | cons x xs => simp
    have hdrop : pat.drop s.length = pat.getD s.length ' ' :: pat.drop (s.length + 1) := by
      rw [List.drop_eq_getElem_cons hlen, List.getD_eq_getElem _ _ hlen]
    rw [hdrop]
    have hne : (lc c == lc (pat.getD s.length ' ')) = false := by
      have h2 := htail s.length hlen h1
      rcases hc with rfl | rfl
      · have hlc : lc '\n' = '\n' := by decide
        rw [hlc]
        exact beq_eq_false_iff_ne.mpr (fun h => h2.1 h.symm)
      · have hlc : lc '<' = '<' := by decide
        rw [hlc]
        exact beq_eq_false_iff_ne.mpr (fun h => h2.2 h.symm)
    show (matchCI (pat.take s.length) s && ((lc c == lc (pat.getD s.length ' ')) && _)) = false
    rw [hne, Bool.false_and, Bool.and_false]

/-- No open marker can start at a nonempty suffix of a marker-free text when
the continuation starts with a newline or an opening angle. -/
theorem openLenAt_suffix_append (a : Text) (hfree : MarkerFree a) (s : Text) (hs : s ≠ [])
    (hsuf : s <:+ a) (c : Char) (hc : c = '\n' ∨ c = '<') (rest : Text) :
    openLenAt (s ++ c :: rest) = none := by
  unfold openLenAt
  rw [matchCI_suffix_cons_false openLongP (by decide)
      (markerTail_ne openLongP (Or.inl rfl)) a hfree.1 s hs hsuf c hc rest,
    matchCI_suffix_cons_false openShortP (by decide)
      (markerTail_ne openShortP (Or.inr (Or.inl rfl))) a hfree.2.1 s hs hsuf c hc rest]
  rfl

/-- No close marker can start at a nonempty suffix of a marker-free text when
the continuation starts with a newline or an opening angle. -/
theorem closeLenAt_suffix_append (a : Text) (hfree : MarkerFree a) (s : Text) (hs : s ≠ [])
    (hsuf : s <:+ a) (c : Char) (hc : c = '\n' ∨ c = '<') (rest : Text) :
    closeLenAt (s ++ c :: rest) = none := by
  unfold closeLenAt
  rw [matchCI_suffix_cons_false closeLongP (by decide)
      (markerTail_ne closeLongP (Or.inr (Or.inr (Or.inl rfl)))) a hfree.2.2.1 s hs hsuf c hc rest,
    matchCI_suffix_cons_false closeShortP (by decide)
      (markerTail_ne closeShortP (Or.inr (Or.inr (Or.inr rfl)))) a hfree.2.2.2 s hs hsuf c hc rest]
  rfl

/-- No marker pattern starts at a character other than an angle bracket. -/
theorem openLenAt_head_ne (c : Char) (hc : (lc c == '<') = false) (cs : Text) :
    openLenAt (c :: cs) = none := by
  unfold openLenAt
  have h1 : matchCI openLongP (c :: cs) = false := by
    show ((lc c == lc '<') && _) = false
    have : lc '<' = '<' := by decide
    rw [this, hc, Bool.false_and]
  have h2 : matchCI openShortP (c :: cs) = false := by
    show ((lc c == lc '<') && _) = false
    have : lc '<' = '<' := by decide
    rw [this, hc, Bool.false_and]
  rw [h1, h2]
  rfl


/-- If no close marker starts inside the prefix a (including straddling into
b), the first close marker of a ++ b is the first one of b, shifted. -/
theorem closeSearch_append (a : Text) :
    ∀ b : Text, (∀ s, s ≠ [] → s <:+ a → closeLenAt (s ++ b) = none) →
      closeSearch (a ++ b) = (closeSearch b).map (fun p => (p.1 + a.length, p.2)) := by
  induction a with
  | nil =>
    intro b _
    cases h : closeSearch b with
    | none => simp [h]
    | some p => simp [h]
  | cons x a' ih =>
    intro b h
    have h1 : closeLenAt ((x :: a') ++ b) = none := h (x :: a') (by simp) List.suffix_rfl
    rw [List.cons_append] at h1 ⊢
    rw [closeSearch, h1]
    rw [ih b (fun s hs hsuf => h s hs (hsuf.trans (List.suffix_cons x a')))]
    cases closeSearch b with
    | none => rfl
    | some p =>
      simp only [Option.map_some', Option.map_map]
      simp [Nat.add_assoc, Nat.add_comm 1 a'.length]

/-- If no open marker starts inside the prefix a (including straddling into
b), the first regex match of a ++ b is the first match of b, shifted. -/
theorem regexFirst_append (a : Text) :
    ∀ b : Text, (∀ s, s ≠ [] → s <:+ a → openLenAt (s ++ b) = none) →
      regexFirst (a ++ b)
        = (regexFirst b).map (fun q => (q.1 + a.length, q.2.1, q.2.2.1 + a.length, q.2.2.2)) := by
  induction a with
  | nil =>
    intro b _
    cases h : regexFirst b with
    | none => simp [h]
    | some q => simp [h]
  | cons x a' ih =>
    intro b h
    have h1 : openLenAt ((x :: a') ++ b) = none := h (x :: a') (by simp) List.suffix_rfl
    rw [List.cons_append] at h1 ⊢
    rw [regexFirst, h1]
    rw [ih b (fun s hs hsuf => h s hs (hsuf.trans (List.suffix_cons x a')))]
    cases regexFirst b with
    | none => rfl
    | some q =>
      simp only [Option.map_some', Option.map_map]
      simp [Nat.add_assoc, Nat.add_comm 1 a'.length]

/-- The emitted opening tag is recognized as the long open marker. -/
theorem openLenAt_tagOpen (rest : Text) : openLenAt (tagOpenLit ++ rest) = some 10 := rfl

/-- The emitted closing tag is recognized as the long close marker. -/
theorem closeLenAt_tagClose (rest : Text) : closeLenAt (tagCloseLit ++ rest) = some 11 := rfl

/-- A regex match at the very start of the text. -/
theorem regexFirst_eq_of_open (t : Text) (ht : t ≠ []) (n : Nat) (km : Nat × Nat)
    (h1 : openLenAt t = some n) (h2 : closeSearch (t.drop n) = some km) :
    regexFirst t = some (0, n, n + km.1, km.2) := by
  cases t with
  | nil => exact absurd rfl ht
  | cons x ts => simp only [regexFirst, h1, h2]


/-- The first close marker after marker-free reasoning text followed by the
emitted closing tag is exactly that tag. -/
theorem closeSearch_think_tagClose (think : Text) (ht : MarkerFree think) :
    closeSearch (think ++ tagCloseLit) = some (think.length, 11) := by
  have hskip : ∀ s, s ≠ [] → s <:+ think → closeLenAt (s ++ tagCloseLit) = none := by
    intro s hs hsuf
    exact closeLenAt_suffix_append think ht s hs hsuf '<' (Or.inr rfl)
      ['/', 'T', 'h', 'i', 'n', 'k', 'i', 'n', 'g', '>']
  rw [closeSearch_append think tagCloseLit hskip]
  have h0 : closeSearch tagCloseLit = some (0, 11) := by decide
  rw [h0]
  simp

/-- The regex match of the emitted tag block: open at 0, close right after the
reasoning text. -/
theorem regexFirst_tagBlock (think : Text) (ht : MarkerFree think) :
    regexFirst (tagOpenLit ++ (think ++ tagCloseLit)) = some (0, 10, 10 + think.length, 11) := by
  refine regexFirst_eq_of_open _ (by simp [tagOpenLit]) 10 (think.length, 11)
    (openLenAt_tagOpen _) ?_
  rw [List.drop_left' (by rfl)]
  exact closeSearch_think_tagClose think ht

/-- The regex match inside a serialized turn record built from marker-free
response and reasoning: exactly the emitted tag block. -/
theorem regexFirst_serializeFinal (resp think : Text)
    (hr : MarkerFree resp) (ht : MarkerFree think) :
    regexFirst (serializeFinal resp think)
      = some (resp.length + 2, 10, resp.length + 12 + think.length, 11) := by
  have hassoc : serializeFinal resp think
      = resp ++ (nl2 ++ (tagOpenLit ++ (think ++ tagCloseLit))) := by
    simp [serializeFinal, List.append_assoc]
  rw [hassoc]
  have hresp : ∀ s, s ≠ [] → s <:+ resp →
      openLenAt (s ++ (nl2 ++ (tagOpenLit ++ (think ++ tagCloseLit)))) = none := by
    intro s hs hsuf
    exact openLenAt_suffix_append resp hr s hs hsuf '\n' (Or.inl rfl)
      ('\n' :: (tagOpenLit ++ (think ++ tagCloseLit)))
  rw [regexFirst_append resp _ hresp]
  have hnl2 : ∀ s, s ≠ [] → s <:+ nl2 →
      openLenAt (s ++ (tagOpenLit ++ (think ++ tagCloseLit))) = none := by
    intro s hs hsuf
    have hchr : (lc '\n' == '<') = false := by decide
    rcases List.suffix_cons_iff.mp hsuf with h | h
    · rw [h, List.cons_append]
      exact openLenAt_head_ne '\n' hchr _
    · rcases List.suffix_cons_iff.mp h with h2 | h2
      · rw [h2, List.cons_append]
        exact openLenAt_head_ne '\n' hchr _
      · rw [List.suffix_nil.mp h2] at hs
        exact absurd rfl hs
  rw [regexFirst_append nl2 _ hnl2]
  rw [regexFirst_tagBlock think ht]
  simp only [Option.map_some', Option.some.injEq, Prod.mk.injEq, nl2]
  simp only [List.length_cons, List.length_nil]
  refine ⟨by omega, trivial, by omega, trivial⟩


/-- Load-time extraction of a serialized record built from marker-free pieces:
the response side keeps its two trailing newlines until trimmed, the
reasoning side is recovered exactly and trimmed. -/
theorem loadExtract_serializeFinal (resp think : Text) (hr : MarkerFree resp)
    (ht : MarkerFree think) :
    loadExtract (serializeFinal resp think)
      = (formatHeadersAsBold (trim (resp ++ nl2)), trim think) := by
  have hm := regexFirst_serializeFinal resp think hr ht
  have htake : (serializeFinal resp think).take (resp.length + 2) = resp ++ nl2 := by
    have h1 : serializeFinal resp think
        = (resp ++ nl2) ++ (tagOpenLit ++ (think ++ tagCloseLit)) := by
      simp [serializeFinal, List.append_assoc]
    rw [h1]
    exact List.take_left' (by simp [nl2])
  have hdrop : (serializeFinal resp think).drop (resp.length + 12 + think.length + 11) = [] := by
    apply List.drop_eq_nil_of_le
    simp [serializeFinal, nl2, tagOpenLit, tagCloseLit]
    omega
  have hslice : sliceBetween (serializeFinal resp think) (resp.length + 2 + 10)
      (resp.length + 12 + think.length) = think := by
    unfold sliceBetween
    have h1 : serializeFinal resp think
        = ((resp ++ nl2) ++ tagOpenLit) ++ (think ++ tagCloseLit) := by
      simp [serializeFinal, List.append_assoc]
    rw [h1]
    rw [List.drop_left' (by simp [nl2, tagOpenLit])]
    rw [show resp.length + 12 + think.length - (resp.length + 2 + 10) = think.length by omega]
    exact List.take_left' rfl
  simp only [loadExtract, hm, htake, hdrop, hslice, List.append_nil]

/-- Trailing whitespace appended to a text disappears under trimRight. -/
theorem trimRight_append_ws (x ws : Text) (hws : ∀ c ∈ ws, isWS c = true) :
    trimRight (x ++ ws) = trimRight x := by
  unfold trimRight
  rw [List.reverse_append]
  rw [List.dropWhile_append_of_pos (by intro a ha; exact hws a (List.mem_reverse.mp ha))]

/-- Trimming absorbs the two appended newlines. -/
theorem trim_append_nl2 (x : Text) : trim (x ++ nl2) = trim x := by
  unfold trim
  rw [trimRight_append_ws x nl2 (by decide)]

/-- splitLines never returns an empty list of lines. -/
theorem splitLines_ne_nil (t : Text) : splitLines t ≠ [] := by
  cases t with
  | nil => simp [splitLines]
  | cons c cs =>
    rw [splitLines]
    by_cases h : c = '\n'
    · simp [h]
    · rw [if_neg h]
      cases splitLines cs <;> simp

/-- Rejoining the split lines restores the text. -/
theorem joinLines_splitLines (t : Text) : joinLines (splitLines t) = t := by
  induction t with
  | nil => rfl
  | cons c cs ih =>
    rw [splitLines]
    by_cases h : c = '\n'
    · rw [if_pos h]
      obtain ⟨l0, L', hL⟩ := List.exists_cons_of_ne_nil (splitLines_ne_nil cs)
      rw [hL]
      rw [hL] at ih
      show [] ++ '\n' :: joinLines (l0 :: L') = c :: cs
      rw [ih, h]
      rfl
    · rw [if_neg h]
      cases hL : splitLines cs with
      | nil => exact absurd hL (splitLines_ne_nil cs)
      | cons l0 L' =>
        rw [hL] at ih
        cases L' with
        | nil =>
          have ih2 : l0 = cs := ih
          show c :: l0 = c :: cs
          rw [ih2]
        | cons l1 L'' =>
          have ih2 : l0 ++ '\n' :: joinLines (l1 :: L'') = cs := ih
          show c :: (l0 ++ '\n' :: joinLines (l1 :: L'')) = c :: cs
          rw [ih2]

/-- A text with no header lines is untouched by formatHeadersAsBold. -/
theorem formatHeadersAsBold_id (t : Text) (h : NoHeader t) : formatHeadersAsBold t = t := by
  unfold formatHeadersAsBold
  have hmap : (splitLines t).map headerBold = splitLines t := by
    have : (splitLines t).map headerBold = (splitLines t).map id := by
      apply List.map_congr_left
      intro l hl
      unfold headerBold
      rw [if_neg (by rw [h l hl]; exact Bool.false_ne_true)]
      rfl
    rw [this, List.map_id]
  rw [hmap, joinLines_splitLines]


/-- C5 counterexample: the round trip is not the identity on all marker-free
pairs — load-time trimming drops the trailing space of the response
"R " even though neither string contains a marker substring. -/
theorem claim5_counterexample :
    MarkerFree (chars "R ") ∧ MarkerFree (chars "S") ∧
    loadExtract (serializeFinal (chars "R ") (chars "S")) ≠ (chars "R ", chars "S") :=
  ⟨by decide, by decide, by decide⟩

/-- C5 (amended): for every (response, reasoning) pair in which neither string
contains a marker substring (case-insensitively), both strings are already
whitespace-trimmed, and the response has no markdown header line (which load
rewrites to bold), serializing to the stored record and deserializing with the
load-time extraction returns the original pair unchanged. -/
theorem claim5_amended_roundtrip (resp think : Text)
    (hr : MarkerFree resp) (ht : MarkerFree think)
    (hrt : trim resp = resp) (htt : trim think = think) (hh : NoHeader resp) :
    loadExtract (serializeFinal resp think) = (resp, think) := by
  rw [loadExtract_serializeFinal resp think hr ht]
  rw [trim_append_nl2 resp, hrt, formatHeadersAsBold_id resp hh, htt]

/-- Witness for C5 (amended) at the pair ("R", "S"). -/
theorem claim5_amended_roundtrip_witness :
    loadExtract (serializeFinal (chars "R") (chars "S")) = (chars "R", chars "S") :=
  claim5_amended_roundtrip (chars "R") (chars "S") (by decide) (by decide) (by decide)
    (by decide) (by decide)

end StoryLoom
